import Mathlib

/-!
Verification of `gc_query_module.py` (genomics-factory).

The module infers the number of alleles from the length of a GC
comma-separated list and computes index mappings into the flattened
upper-triangular list of ref/alt genotype-pair labels.

Shallow embedding conventions:
* Python `None`-returning search becomes `Option Nat`.
* Python `raise ValueError` becomes `Except String`.
* Two-character pair-label strings become `List Char`; the Python
  single-character substring test `c in s` becomes `List.contains`.
* The `verbose` printing path is modelled by returning the printed lines
  as a `List String` alongside the result; the non-verbose core of each
  lookup is factored out (`gc_indices`, `limited_gc_indices`) exactly as
  the body that follows the argument checks in the source.
* Python list indexing `xs[i]` (which can raise `IndexError`) is modelled
  with `List.getD` in the main definitions; a separate `Option`-threaded
  variant (`cur_pairs_list?`) models the possibility of an index error.
-/

/-- `tri k` is the sum 1 + 2 + ... + k, the running total built by the loop
in `get_num_of_alleles_from_gc`. -/
def tri : Nat → Nat
  | 0 => 0
  | k + 1 => tri k + (k + 1)

/-- Loop of `get_num_of_alleles_from_gc`: iterate over the remaining
candidates, accumulate `sum += i`, and return the first `i` whose running
sum equals `gc_len`; fall through to `none` when the list is exhausted. -/
def gcLoop (gc_len : Nat) : List Nat → Nat → Option Nat
  | [], _ => none
  | i :: rest, sum =>
    let sum' := sum + i
    if sum' = gc_len then some i else gcLoop gc_len rest sum'

/-- Embedding of `get_num_of_alleles_from_gc(gc_len)`: scan `i` over
`range(1, gc_len)` with a running sum, returning the first `i` with
`1 + 2 + ... + i = gc_len`, and `None` (here `none`) otherwise. -/
def get_num_of_alleles_from_gc (gc_len : Nat) : Option Nat :=
  gcLoop gc_len (List.range' 1 (gc_len - 1)) 0

/-- Embedding of `list(map(chr, range(65, 91)))`: the uppercase letters
`['A', 'B', ..., 'Z']`. -/
def generic_allele_lookup_table : List Char :=
  (List.range' 65 26).map Char.ofNat

/-- Python `generic_allele_lookup_table[i]`, with a `getD` default (the
in-bounds property for all indices actually used is proved separately
via `cur_pairs_list?`). -/
def tableChar (i : Nat) : Char :=
  generic_allele_lookup_table.getD i (Char.ofNat 0)

/-- Embedding of the pair-list construction shared by both lookups:
`for i in range(num_alleles): for j in range(i+1):` append
`(table[i] + table[j])[::-1]`. -/
def cur_pairs_list (num_alleles : Nat) : List (List Char) :=
  (List.range num_alleles).flatMap fun i =>
    (List.range (i + 1)).map fun j =>
      ([tableChar i, tableChar j]).reverse

/-- Index-checked variant of `cur_pairs_list`: every table access goes
through `xs[i]?`, so the result is `none` exactly when the Python
construction would raise an `IndexError`. -/
def cur_pairs_list? (num_alleles : Nat) : Option (List (List Char)) :=
  ((List.range num_alleles).mapM fun i =>
    (List.range (i + 1)).mapM fun j => do
      let a ← generic_allele_lookup_table[i]?
      let b ← generic_allele_lookup_table[j]?
      pure ([a, b]).reverse).map List.flatten

/-- Body of `get_gc_indices_for_alt_allele` after the argument checks:
`alt_allele = table[alt_idx + 1]`, then
`[i for i,s in enumerate(cur_pairs_list) if alt_allele in s]`. -/
def gc_indices (num_alleles alt_idx : Nat) : List Nat :=
  let allele_idx := alt_idx + 1
  let alt_allele := tableChar allele_idx
  ((cur_pairs_list num_alleles).enum.filter fun p => p.2.contains alt_allele).map
    Prod.fst

/-- Body of `get_limited_gc_indices_for_alt_allele` after the argument
checks: `limited_pairs = ['A' + alt_allele, alt_allele * 2]`, then
`[i for i,pair in enumerate(cur_pairs_list) if pair in limited_pairs]`. -/
def limited_gc_indices (num_alleles alt_idx : Nat) : List Nat :=
  let allele_idx := alt_idx + 1
  let alt_allele := tableChar allele_idx
  let limited_pairs := [['A', alt_allele], [alt_allele, alt_allele]]
  ((cur_pairs_list num_alleles).enum.filter fun p =>
    limited_pairs.contains p.2).map Prod.fst

/-- Embedding of `get_gc_indices_for_alt_allele(num_alleles, alt_idx)`:
the three validation checks in source order, then the body
(`gc_indices`). Arguments are `Int` so that the negative cases of the
checks are representable. -/
def get_gc_indices_for_alt_allele (num_alleles alt_idx : Int) :
    Except String (List Nat) :=
  if num_alleles < 2 then
    Except.error "num_alleles must be integer >= 2"
  else if alt_idx < 0 then
    Except.error "alt_idx must be non negative integer"
  else if alt_idx > num_alleles - 2 then
    Except.error "alt_idx must be <= (num_alleles - 2)"
  else
    Except.ok (gc_indices num_alleles.toNat alt_idx.toNat)

/-- Embedding of `get_limited_gc_indices_for_alt_allele(num_alleles,
alt_idx)`: identical validation, then the body (`limited_gc_indices`). -/
def get_limited_gc_indices_for_alt_allele (num_alleles alt_idx : Int) :
    Except String (List Nat) :=
  if num_alleles < 2 then
    Except.error "num_alleles must be integer >= 2"
  else if alt_idx < 0 then
    Except.error "alt_idx must be non negative integer"
  else if alt_idx > num_alleles - 2 then
    Except.error "alt_idx must be <= (num_alleles - 2)"
  else
    Except.ok (limited_gc_indices num_alleles.toNat alt_idx.toNat)

/-- Diagnostic lines printed by `get_gc_indices_for_alt_allele` when
`verbose` holds (modelled as returned data rather than console output). -/
def gc_indices_log (num_alleles alt_idx : Nat) : List String :=
  let alt_allele := tableChar (alt_idx + 1)
  let pairs := cur_pairs_list num_alleles
  let indices := gc_indices num_alleles alt_idx
  ["   Alt-allele: " ++ toString alt_allele,
   "   Indices: " ++ toString indices,
   "   All pairs: " ++ toString pairs,
   "   Selected pairs: " ++ toString (indices.map fun i => pairs.getD i [])]

/-- `get_gc_indices_for_alt_allele` with its `verbose` flag: the returned
value is paired with the printed lines (empty when `verbose` is false;
nothing is printed when validation raises). -/
def get_gc_indices_for_alt_allele_verbose (num_alleles alt_idx : Int)
    (verbose : Bool) : Except String (List Nat × List String) :=
  if num_alleles < 2 then
    Except.error "num_alleles must be integer >= 2"
  else if alt_idx < 0 then
    Except.error "alt_idx must be non negative integer"
  else if alt_idx > num_alleles - 2 then
    Except.error "alt_idx must be <= (num_alleles - 2)"
  else
    Except.ok (gc_indices num_alleles.toNat alt_idx.toNat,
      if verbose then gc_indices_log num_alleles.toNat alt_idx.toNat else [])

/-- Diagnostic lines printed by `get_limited_gc_indices_for_alt_allele`
when `verbose` holds. -/
def limited_gc_indices_log (num_alleles alt_idx : Nat) : List String :=
  let alt_allele := tableChar (alt_idx + 1)
  let pairs := cur_pairs_list num_alleles
  let indices := limited_gc_indices num_alleles alt_idx
  ["   Alt-allele: " ++ toString alt_allele,
   "   Indices: " ++ toString indices,
   "   All pairs: " ++ toString pairs,
   "   Limited pairs: " ++ toString [['A', alt_allele], [alt_allele, alt_allele]],
   "   Selected pairs: " ++ toString (indices.map fun i => pairs.getD i [])]

/-- `get_limited_gc_indices_for_alt_allele` with its `verbose` flag. -/
def get_limited_gc_indices_for_alt_allele_verbose (num_alleles alt_idx : Int)
    (verbose : Bool) : Except String (List Nat × List String) :=
  if num_alleles < 2 then
    Except.error "num_alleles must be integer >= 2"
  else if alt_idx < 0 then
    Except.error "alt_idx must be non negative integer"
  else if alt_idx > num_alleles - 2 then
    Except.error "alt_idx must be <= (num_alleles - 2)"
  else
    Except.ok (limited_gc_indices num_alleles.toNat alt_idx.toNat,
      if verbose then limited_gc_indices_log num_alleles.toNat alt_idx.toNat
      else [])

/-- Spec-side pair enumeration (§3/§4.2 of the specification, stated in
the spec's own words for refinement comparison): for `(i, j)` with
`j ≤ i`, the label is `label[j]` followed by `label[i]`, emitted in order
`(0,0), (1,0), (1,1), (2,0), ...`. -/
def enumeratePairLabels (alleleCount : Nat) : List (List Char) :=
  (List.range alleleCount).flatMap fun i =>
    (List.range (i + 1)).map fun j => [tableChar j, tableChar i]

/-- Spec-side selection predicate of the full lookup (§4.3): a label is
selected if either its first or its second character equals the target
letter. -/
def labelMatchesFirstOrSecond (s : List Char) (target : Char) : Bool :=
  match s with
  | [u, v] => u = target || v = target
  | _ => false

/-- Spec-side description of the full lookup's result: every position of
the enumerated pair list whose label contains the target letter (the
label at index `altIndex + 1`) as first or second character. -/
def specFullPositions (alleleCount altIndex : Nat) : List Nat :=
  ((enumeratePairLabels alleleCount).enum.filter fun p =>
    labelMatchesFirstOrSecond p.2 (tableChar (altIndex + 1))).map Prod.fst

/-- Spec-side description of the limited lookup's result: exactly the
positions whose label equals `'A' + target` or `target + target`. -/
def specLimitedPositions (alleleCount altIndex : Nat) : List Nat :=
  let target := tableChar (altIndex + 1)
  ((enumeratePairLabels alleleCount).enum.filter fun p =>
    p.2 = ['A', target] || p.2 = [target, target]).map Prod.fst

/-! ## Arithmetic facts about triangular numbers -/

lemma two_mul_tri (k : Nat) : 2 * tri k = k * (k + 1) := by
  induction k with
  | zero => rfl
  | succ n ih => simp only [tri]; ring_nf; ring_nf at ih; omega

lemma tri_eq_div (k : Nat) : tri k = k * (k + 1) / 2 := by
  have := two_mul_tri k
  omega

lemma le_tri (k : Nat) : k ≤ tri k := by
  induction k with
  | zero => simp [tri]
  | succ n ih => simp only [tri]; omega

lemma tri_lt_tri {a b : Nat} (h : a < b) : tri a < tri b := by
  induction b with
  | zero => omega
  | succ n ih =>
    rcases Nat.lt_succ_iff_lt_or_eq.mp h with h' | h'
    · have := ih h'
      simp only [tri]; omega
    · subst h'
      simp only [tri]; omega

lemma lt_tri_of_two_le {k : Nat} (h : 2 ≤ k) : k < tri k := by
  have h3 : k * 3 ≤ k * (k + 1) := Nat.mul_le_mul_left k (by omega)
  have := two_mul_tri k
  omega

/-! ## Behaviour of the allele-count inference loop -/

lemma gcLoop_finds (L k : Nat) (hL : tri k = L) :
    ∀ m a, a < k → k ≤ a + m →
      gcLoop L (List.range' (a + 1) m) (tri a) = some k := by
  intro m
  induction m with
  | zero => intro a h1 h2; omega
  | succ m ih =>
    intro a h1 h2
    rw [List.range'_succ]
    show (if tri a + (a + 1) = L then some (a + 1) else _) = some k
    have hsum : tri a + (a + 1) = tri (a + 1) := rfl
    by_cases hk : k = a + 1
    · subst hk
      rw [if_pos (by omega)]
    · have hne : tri (a + 1) ≠ L := by
        intro he
        have : tri (a + 1) < tri k := tri_lt_tri (by omega)
        omega
      rw [if_neg (by omega)]
      rw [hsum]
      exact ih (a + 1) (by omega) (by omega)

lemma gcLoop_none (L : Nat) (hL : ∀ i, tri i ≠ L) :
    ∀ m a, gcLoop L (List.range' (a + 1) m) (tri a) = none := by
  intro m
  induction m with
  | zero => intro a; rfl
  | succ m ih =>
    intro a
    rw [List.range'_succ]
    show (if tri a + (a + 1) = L then some (a + 1) else _) = none
    have hsum : tri a + (a + 1) = tri (a + 1) := rfl
    rw [if_neg (by rw [hsum]; exact hL (a + 1))]
    rw [hsum]
    exact ih (a + 1)

/-! ## Structure of the pair-label list -/

lemma cur_pairs_eq_enumerate (n : Nat) :
    cur_pairs_list n = enumeratePairLabels n := by
  simp [cur_pairs_list, enumeratePairLabels]

lemma tableChar_inj : ∀ i < 26, ∀ j < 26, tableChar i = tableChar j → i = j := by
  decide

lemma length_cur_pairs (n : Nat) : (cur_pairs_list n).length = tri n := by
  induction n with
  | zero => rfl
  | succ m ih =>
    rw [cur_pairs_list, List.range_succ, List.flatMap_append] at *
    simp only [List.length_append, List.flatMap_cons, List.flatMap_nil,
      List.append_nil, List.length_map, List.length_range] at *
    rw [ih]
    rfl

lemma nodup_cur_pairs {n : Nat} (hn : n ≤ 26) : (cur_pairs_list n).Nodup := by
  rw [cur_pairs_eq_enumerate, enumeratePairLabels, List.nodup_flatMap]
  constructor
  · intro i hi
    have hi' : i < n := List.mem_range.mp hi
    apply List.Nodup.map_on _ (List.nodup_range _)
    intro x hx y hy hxy
    have hx' : x < i + 1 := List.mem_range.mp hx
    have hy' : y < i + 1 := List.mem_range.mp hy
    have : tableChar x = tableChar y := (List.cons.injEq _ _ _ _).mp hxy |>.1
    exact tableChar_inj x (by omega) y (by omega) this
  · have hp : (List.range n).Pairwise (· < ·) := List.pairwise_lt_range n
    apply hp.imp_of_mem
    intro a b ha hb hab
    have ha' : a < n := List.mem_range.mp ha
    have hb' : b < n := List.mem_range.mp hb
    intro s hsa hsb
    simp only [Function.onFun, List.mem_map, List.mem_range] at hsa hsb
    obtain ⟨x, hx, hxe⟩ := hsa
    obtain ⟨y, hy, hye⟩ := hsb
    rw [← hxe] at hye
    have hba : tableChar b = tableChar a :=
      ((List.cons.injEq _ _ _ _).mp hye |>.2 |> (List.cons.injEq _ _ _ _).mp).1
    have := tableChar_inj b (by omega) a (by omega) hba
    omega

lemma mem_enumerate_shape {n : Nat} {s : List Char}
    (hs : s ∈ enumeratePairLabels n) :
    ∃ i j, j ≤ i ∧ i < n ∧ s = [tableChar j, tableChar i] := by
  simp only [enumeratePairLabels, List.mem_flatMap, List.mem_map,
    List.mem_range] at hs
  obtain ⟨i, hi, j, hj, he⟩ := hs
  exact ⟨i, j, by omega, hi, he.symm⟩

/-! ## Membership tests on two-character labels -/

lemma contains_pair (u v c : Char) :
    ([u, v].contains c) = (decide (c = u) || decide (c = v)) := by
  simp [List.contains]

lemma contains_pair_list (u v c : List Char) :
    ([u, v].contains c) = (decide (c = u) || decide (c = v)) := by
  simp [List.contains]

/-! ## Facts about `enum`, `filter` and `countP` -/

lemma snd_mem_of_mem_enumFrom {α : Type} :
    ∀ (l : List α) (k : Nat) (p : Nat × α), p ∈ List.enumFrom k l → p.2 ∈ l := by
  intro l
  induction l with
  | nil => intro k p h; simp [List.enumFrom] at h
  | cons x xs ih =>
    intro k p h
    rw [List.enumFrom] at h
    rcases List.mem_cons.mp h with h | h
    · subst h; simp
    · exact List.mem_cons_of_mem _ (ih (k + 1) p h)

lemma sorted_filter_enum_map_fst {α : Type} (l : List α) (p : Nat × α → Bool) :
    ((l.enum.filter p).map Prod.fst).Sorted (· < ·) := by
  have h1 : List.Sublist (l.enum.filter p) l.enum := List.filter_sublist _
  have h2 : List.Sublist ((l.enum.filter p).map Prod.fst)
      (l.enum.map Prod.fst) := h1.map Prod.fst
  rw [List.enum_map_fst] at h2
  exact List.Pairwise.sublist h2 (List.sorted_lt_range _)

lemma countP_enumFrom {α : Type} (q : α → Bool) :
    ∀ (l : List α) (k : Nat),
      (List.enumFrom k l).countP (fun p => q p.2) = l.countP q := by
  intro l
  induction l with
  | nil => intro k; rfl
  | cons x xs ih =>
    intro k
    rw [List.enumFrom]
    rw [List.countP_cons, List.countP_cons, ih (k + 1)]

lemma countP_flatMap {α β : Type} (q : β → Bool) (f : α → List β) :
    ∀ l : List α,
      (l.flatMap f).countP q = (l.map fun x => (f x).countP q).sum := by
  intro l
  induction l with
  | nil => rfl
  | cons x xs ih =>
    rw [List.flatMap_cons, List.countP_append, ih, List.map_cons, List.sum_cons]

lemma countP_range_eq (a : Nat) :
    ∀ m, (List.range m).countP (fun j => j = a) = if a < m then 1 else 0 := by
  intro m
  induction m with
  | zero => rfl
  | succ m ih =>
    rw [List.range_succ, List.countP_append, ih, List.countP_cons,
      List.countP_nil]
    simp only [decide_eq_true_eq]
    split_ifs <;> omega

lemma sum_marker (a : Nat) :
    ∀ m, ((List.range m).map fun i =>
        if i = a then a + 1 else if a < i then 1 else 0).sum
      = if a < m then m else 0 := by
  intro m
  induction m with
  | zero => rfl
  | succ m ih =>
    rw [List.range_succ, List.map_append, List.sum_append, ih]
    simp only [List.map_cons, List.map_nil, List.sum_cons, List.sum_nil]
    by_cases h : m = a
    · subst h
      rw [if_neg (by omega), if_pos rfl, if_pos (by omega)]
      omega
    · rw [if_neg h]
      by_cases h2 : a < m
      · rw [if_pos h2, if_pos (by omega), if_pos (by omega)]
        omega
      · rw [if_neg h2, if_neg (by omega), if_neg (by omega)]
        omega

/-! ## The size of the full lookup's result -/

lemma length_gc_indices {n t : Nat} (hn2 : 2 ≤ n) (hn : n ≤ 26)
    (ht : t ≤ n - 2) : (gc_indices n t).length = n := by
  have haN : t + 1 < n := by omega
  have ha26 : t + 1 < 26 := by omega
  rw [gc_indices]
  rw [List.length_map, ← List.countP_eq_length_filter]
  rw [show ((cur_pairs_list n).enum.countP
        (fun p => p.2.contains (tableChar (t + 1))))
      = (cur_pairs_list n).countP (fun s => s.contains (tableChar (t + 1))) from
    countP_enumFrom (fun s => s.contains (tableChar (t + 1)))
      (cur_pairs_list n) 0]
  rw [cur_pairs_eq_enumerate, enumeratePairLabels]
  rw [countP_flatMap]
  have hcongr : ∀ i ∈ List.range n,
      (((List.range (i + 1)).map fun j =>
        [tableChar j, tableChar i]).countP fun s =>
          s.contains (tableChar (t + 1)))
      = (if i = t + 1 then (t + 1) + 1 else if t + 1 < i then 1 else 0) := by
    intro i hi
    have hiN : i < n := List.mem_range.mp hi
    rw [List.countP_map]
    by_cases hia : i = t + 1
    · rw [if_pos hia]
      have hall : ∀ j ∈ List.range (i + 1),
          (((fun s => s.contains (tableChar (t + 1))) ∘ fun j =>
            [tableChar j, tableChar i]) j) = true := by
        intro j _
        simp only [Function.comp_apply, contains_pair]
        rw [hia]
        simp
      rw [List.countP_congr (by intro x hx; rw [hall x hx]), List.countP_true,
        List.length_range, hia]
    · rw [if_neg hia]
      have hne : tableChar (t + 1) ≠ tableChar i := by
        intro he
        exact hia (tableChar_inj (t + 1) ha26 i (by omega) he).symm
      have hptw : ∀ j ∈ List.range (i + 1),
          (((fun s => s.contains (tableChar (t + 1))) ∘ fun j =>
            [tableChar j, tableChar i]) j) = (decide (j = t + 1)) := by
        intro j hj
        have hjle : j < i + 1 := List.mem_range.mp hj
        simp only [Function.comp_apply, contains_pair]
        have h2 : decide (tableChar (t + 1) = tableChar i) = false := by
          simp [hne]
        rw [h2, Bool.or_false]
        by_cases hja : j = t + 1
        · subst hja
          simp
        · have hne2 : tableChar (t + 1) ≠ tableChar j := by
            intro he
            exact hja (tableChar_inj (t + 1) ha26 j (by omega) he).symm
          simp [hne2, hja]
      rw [List.countP_congr (by intro x hx; rw [hptw x hx])]
      rw [countP_range_eq]
      by_cases hai : t + 1 < i
      · rw [if_pos (by omega), if_pos hai]
      · rw [if_neg (by omega), if_neg hai]
  rw [List.map_congr_left hcongr, sum_marker, if_pos haN]

/-! ## The lookups agree with the spec-side descriptions -/

lemma gc_indices_eq_spec (n t : Nat) : gc_indices n t = specFullPositions n t := by
  rw [gc_indices, specFullPositions, cur_pairs_eq_enumerate]
  congr 1
  apply List.filter_congr
  intro p hp
  have hmem : p.2 ∈ enumeratePairLabels n :=
    snd_mem_of_mem_enumFrom _ 0 p hp
  obtain ⟨i, j, _, _, he⟩ := mem_enumerate_shape hmem
  rw [he, contains_pair, labelMatchesFirstOrSecond]
  simp [eq_comm]

lemma limited_indices_eq_spec (n t : Nat) :
    limited_gc_indices n t = specLimitedPositions n t := by
  rw [limited_gc_indices, specLimitedPositions, cur_pairs_eq_enumerate]
  congr 1
  apply List.filter_congr
  intro p _
  rw [contains_pair_list]

lemma limited_subset_full_core (n t : Nat) :
    limited_gc_indices n t ⊆ gc_indices n t := by
  rw [limited_gc_indices, gc_indices]
  have hsub := List.monotone_filter_right ((cur_pairs_list n).enum)
    (p := fun p => ([['A', tableChar (t + 1)],
      [tableChar (t + 1), tableChar (t + 1)]] : List (List Char)).contains p.2)
    (q := fun p => p.2.contains (tableChar (t + 1)))
    (by
      intro p hp
      simp only [contains_pair_list, Bool.or_eq_true, decide_eq_true_eq] at hp
      show p.2.contains (tableChar (t + 1)) = true
      rcases hp with h | h <;> rw [h, contains_pair] <;> simp)
  exact (hsub.map Prod.fst).subset

/-! ## Unfolding the wrappers on valid arguments -/

lemma get_gc_ok {n t : Int} (h2 : 2 ≤ n) (h0 : 0 ≤ t) (ht : t ≤ n - 2) :
    get_gc_indices_for_alt_allele n t =
      Except.ok (gc_indices n.toNat t.toNat) := by
  rw [get_gc_indices_for_alt_allele, if_neg (by omega), if_neg (by omega),
    if_neg (by omega)]

lemma get_limited_ok {n t : Int} (h2 : 2 ≤ n) (h0 : 0 ≤ t) (ht : t ≤ n - 2) :
    get_limited_gc_indices_for_alt_allele n t =
      Except.ok (limited_gc_indices n.toNat t.toNat) := by
  rw [get_limited_gc_indices_for_alt_allele, if_neg (by omega),
    if_neg (by omega), if_neg (by omega)]

/-! ## Index-safety checks -/

set_option maxRecDepth 20000 in
lemma pairs_checked_ok : ∀ n : Nat, n < 27 →
    cur_pairs_list? n = some (cur_pairs_list n) := by decide

lemma table_get_some : ∀ t : Nat, t < 25 →
    (generic_allele_lookup_table[t + 1]?).isSome = true := by decide

/-! ## Claim theorems -/

/-- C1 (counterexample): at `k = 1` the triangular number is `1`, but
`get_num_of_alleles_from_gc(1)` scans `range(1, 1)`, which is empty, and
returns `None` — not `1` as the claim states for every `k ≥ 1`. -/
theorem infer_allele_count_fails_at_one :
    get_num_of_alleles_from_gc (1 * (1 + 1) / 2) ≠ some 1 := by decide

/-- C1 (amended): for every integer `k ≥ 2`,
`get_num_of_alleles_from_gc (k*(k+1)/2) = k`; in particular it returns 4
for input 10 and 3 for input 6 (see the witness). -/
theorem infer_allele_count_triangular (k : Nat) (hk : 2 ≤ k) :
    get_num_of_alleles_from_gc (k * (k + 1) / 2) = some k := by
  rw [← tri_eq_div]
  unfold get_num_of_alleles_from_gc
  have h1 : k < tri k := lt_tri_of_two_le hk
  have h0 : (0 : Nat) = tri 0 := rfl
  calc gcLoop (tri k) (List.range' 1 (tri k - 1)) 0
      = gcLoop (tri k) (List.range' (0 + 1) (tri k - 1)) (tri 0) := by rw [← h0]
    _ = some k := gcLoop_finds (tri k) k rfl _ 0 (by omega) (by omega)

/-- C1 witness: the theorem instantiated at `k = 4` (input 10, the spec's
concrete scenario) and `k = 3` (input 6). -/
theorem infer_allele_count_triangular_witness :
    get_num_of_alleles_from_gc (4 * (4 + 1) / 2) = some 4 ∧
      get_num_of_alleles_from_gc (3 * (3 + 1) / 2) = some 3 :=
  ⟨infer_allele_count_triangular 4 (by decide),
   infer_allele_count_triangular 3 (by decide)⟩

/-- C2: for every `alleleCount` in 2..26 the enumerated pair-label list
has length `alleleCount*(alleleCount+1)/2`, contains no duplicate labels,
and is exactly the spec-order enumeration (pairs `(0,0), (1,0), (1,1),
(2,0), ...`, each rendered `label[j]` before `label[i]`). -/
theorem enumerate_pair_labels_spec (n : Nat) (h2 : 2 ≤ n) (h26 : n ≤ 26) :
    (cur_pairs_list n).length = n * (n + 1) / 2 ∧ (cur_pairs_list n).Nodup ∧
      cur_pairs_list n = enumeratePairLabels n :=
  ⟨by rw [length_cur_pairs, tri_eq_div], nodup_cur_pairs h26,
    cur_pairs_eq_enumerate n⟩

/-- C2 witness: the theorem instantiated at `alleleCount = 4`. -/
theorem enumerate_pair_labels_spec_witness :
    (cur_pairs_list 4).length = 4 * (4 + 1) / 2 ∧ (cur_pairs_list 4).Nodup ∧
      cur_pairs_list 4 = enumeratePairLabels 4 :=
  enumerate_pair_labels_spec 4 (by decide) (by decide)

/-- C3: for every valid input, the full lookup returns exactly the
positions of the enumerated pair list whose label contains the target
letter (the label at index `altIndex + 1`) as first or second character,
and that position list is in ascending order. -/
theorem gc_indices_match_spec (n t : Int) (h2 : 2 ≤ n) (h26 : n ≤ 26)
    (h0 : 0 ≤ t) (ht : t ≤ n - 2) :
    get_gc_indices_for_alt_allele n t =
        Except.ok (specFullPositions n.toNat t.toNat) ∧
      (specFullPositions n.toNat t.toNat).Sorted (· < ·) := by
  constructor
  · rw [get_gc_ok h2 h0 ht, gc_indices_eq_spec]
  · rw [specFullPositions]
    exact sorted_filter_enum_map_fst _ _

/-- C3 witness: at `alleleCount = 4`, `altIndex = 2` the full lookup
returns `[6, 7, 8, 9]` (the positions of AD, BD, CD, DD). -/
theorem gc_indices_match_spec_witness :
    get_gc_indices_for_alt_allele 4 2 = Except.ok [6, 7, 8, 9] := by
  have h := (gc_indices_match_spec 4 2 (by decide) (by decide) (by decide)
    (by decide)).1
  rw [h]
  rfl

/-- C4: for every valid input, the limited lookup returns exactly the
positions of the enumerated pair list whose label equals (exact match)
`'A' + targetLabel` or `targetLabel + targetLabel`. -/
theorem limited_indices_match_spec (n t : Int) (h2 : 2 ≤ n) (h26 : n ≤ 26)
    (h0 : 0 ≤ t) (ht : t ≤ n - 2) :
    get_limited_gc_indices_for_alt_allele n t =
      Except.ok (specLimitedPositions n.toNat t.toNat) := by
  rw [get_limited_ok h2 h0 ht, limited_indices_eq_spec]

/-- C4 witness: at `alleleCount = 4`, `altIndex = 1` the target label is
`C` and the limited lookup returns `[3, 5]` (positions of AC and CC). -/
theorem limited_indices_match_spec_witness :
    get_limited_gc_indices_for_alt_allele 4 1 = Except.ok [3, 5] := by
  have h := limited_indices_match_spec 4 1 (by decide) (by decide) (by decide)
    (by decide)
  rw [h]
  rfl

/-- C5: both lookups fail with a `ValueError` (here `Except.error`),
produced by the checks that precede all computation, exactly when
`alleleCount < 2`, `altIndex < 0`, or `altIndex > alleleCount - 2`
(non-integer arguments are unrepresentable in the `Int`-typed
embedding). -/
theorem lookups_reject_invalid_arguments (n t : Int) :
    ((∃ e, get_gc_indices_for_alt_allele n t = Except.error e) ↔
      (n < 2 ∨ t < 0 ∨ t > n - 2)) ∧
    ((∃ e, get_limited_gc_indices_for_alt_allele n t = Except.error e) ↔
      (n < 2 ∨ t < 0 ∨ t > n - 2)) := by
  constructor
  · rw [get_gc_indices_for_alt_allele]
    by_cases h1 : n < 2
    · rw [if_pos h1]
      exact ⟨fun _ => Or.inl h1, fun _ => ⟨_, rfl⟩⟩
    · rw [if_neg h1]
      by_cases h2 : t < 0
      · rw [if_pos h2]
        exact ⟨fun _ => Or.inr (Or.inl h2), fun _ => ⟨_, rfl⟩⟩
      · rw [if_neg h2]
        by_cases h3 : t > n - 2
        · rw [if_pos h3]
          exact ⟨fun _ => Or.inr (Or.inr h3), fun _ => ⟨_, rfl⟩⟩
        · rw [if_neg h3]
          constructor
          · rintro ⟨e, he⟩
            simp at he
          · intro h
            omega
  · rw [get_limited_gc_indices_for_alt_allele]
    by_cases h1 : n < 2
    · rw [if_pos h1]
      exact ⟨fun _ => Or.inl h1, fun _ => ⟨_, rfl⟩⟩
    · rw [if_neg h1]
      by_cases h2 : t < 0
      · rw [if_pos h2]
        exact ⟨fun _ => Or.inr (Or.inl h2), fun _ => ⟨_, rfl⟩⟩
      · rw [if_neg h2]
        by_cases h3 : t > n - 2
        · rw [if_pos h3]
          exact ⟨fun _ => Or.inr (Or.inr h3), fun _ => ⟨_, rfl⟩⟩
        · rw [if_neg h3]
          constructor
          · rintro ⟨e, he⟩
            simp at he
          · intro h
            omega

/-- C5 witness: `alleleCount = 1` is rejected by both lookups. -/
theorem lookups_reject_invalid_arguments_witness :
    (∃ e, get_gc_indices_for_alt_allele 1 0 = Except.error e) ∧
      (∃ e, get_limited_gc_indices_for_alt_allele 1 0 = Except.error e) :=
  ⟨(lookups_reject_invalid_arguments 1 0).1.mpr (Or.inl (by decide)),
   (lookups_reject_invalid_arguments 1 0).2.mpr (Or.inl (by decide))⟩

/-- C6: for every valid input, every position returned by the limited
lookup is contained in the positions returned by the full lookup. -/
theorem limited_subset_full (n t : Int) (h2 : 2 ≤ n) (h26 : n ≤ 26)
    (h0 : 0 ≤ t) (ht : t ≤ n - 2) :
    ∀ ls lf, get_limited_gc_indices_for_alt_allele n t = Except.ok ls →
      get_gc_indices_for_alt_allele n t = Except.ok lf → ls ⊆ lf := by
  intro ls lf hls hlf
  rw [get_limited_ok h2 h0 ht] at hls
  rw [get_gc_ok h2 h0 ht] at hlf
  have h1 := Except.ok.inj hls
  have h2' := Except.ok.inj hlf
  rw [← h1, ← h2']
  exact limited_subset_full_core _ _

/-- C6 witness: at `alleleCount = 4`, `altIndex = 1` the limited result
`[3, 5]` is contained in the full result `[3, 4, 5, 8]`. -/
theorem limited_subset_full_witness : ([3, 5] : List Nat) ⊆ [3, 4, 5, 8] :=
  limited_subset_full 4 1 (by decide) (by decide) (by decide) (by decide)
    [3, 5] [3, 4, 5, 8]
    (by rw [get_limited_ok (by decide) (by decide) (by decide)]; rfl)
    (by rw [get_gc_ok (by decide) (by decide) (by decide)]; rfl)

/-- C7: for every positive `length` that is not a triangular number (no
`k ≤ length` has `1+...+k = length`; candidates above `length` are
impossible since `tri k ≥ k`), the scan over `range(1, length)` finds no
match and the function returns `None` rather than raising. -/
theorem infer_non_triangular_none (L : Nat) (h0 : 0 < L)
    (h : ∀ k ≤ L, tri k ≠ L) : get_num_of_alleles_from_gc L = none := by
  unfold get_num_of_alleles_from_gc
  have hall : ∀ i, tri i ≠ L := by
    intro i
    by_cases hi : i ≤ L
    · exact h i hi
    · intro he
      have := le_tri i
      omega
  have h0' : (0 : Nat) = tri 0 := rfl
  calc gcLoop L (List.range' 1 (L - 1)) 0
      = gcLoop L (List.range' (0 + 1) (L - 1)) (tri 0) := by rw [← h0']
    _ = none := gcLoop_none L hall _ 0

/-- C7 witness: the theorem instantiated at the non-triangular length 4. -/
theorem infer_non_triangular_none_witness :
    get_num_of_alleles_from_gc 4 = none :=
  infer_non_triangular_none 4 (by decide) (by decide)

/-- C8: the `verbose` flag is purely observational — with any flag value
the returned positions equal those of the non-verbose computation (hence
`verbose=True` and `verbose=False` agree), and each lookup is a
deterministic pure function of its arguments. -/
theorem verbose_flag_observational (n t : Int) (v : Bool) :
    (get_gc_indices_for_alt_allele_verbose n t v).map Prod.fst =
        get_gc_indices_for_alt_allele n t ∧
      (get_limited_gc_indices_for_alt_allele_verbose n t v).map Prod.fst =
        get_limited_gc_indices_for_alt_allele n t := by
  constructor
  · rw [get_gc_indices_for_alt_allele_verbose, get_gc_indices_for_alt_allele]
    split_ifs <;> rfl
  · rw [get_limited_gc_indices_for_alt_allele_verbose,
      get_limited_gc_indices_for_alt_allele]
    split_ifs <;> rfl

/-- C9: on every valid input with `alleleCount ≤ 26`, all indices used
into the 26-letter allele table are in bounds: the index-checked pair
construction succeeds (no `IndexError` from the loop indices `i`, `j`),
and the target access at `altIndex + 1` succeeds. -/
theorem lookups_within_table_bounds (n t : Nat) (h2 : 2 ≤ n) (h26 : n ≤ 26)
    (ht : t ≤ n - 2) :
    cur_pairs_list? n = some (cur_pairs_list n) ∧
      (generic_allele_lookup_table[t + 1]?).isSome = true :=
  ⟨pairs_checked_ok n (by omega), table_get_some t (by omega)⟩

/-- C9 witness: the theorem instantiated at `alleleCount = 4`,
`altIndex = 2`. -/
theorem lookups_within_table_bounds_witness :
    cur_pairs_list? 4 = some (cur_pairs_list 4) ∧
      (generic_allele_lookup_table[2 + 1]?).isSome = true :=
  lookups_within_table_bounds 4 2 (by decide) (by decide) (by decide)

/-- C10: for every valid input, the full lookup returns exactly
`alleleCount` positions, in strictly ascending order. -/
theorem gc_indices_count_sorted (n t : Int) (h2 : 2 ≤ n) (h26 : n ≤ 26)
    (h0 : 0 ≤ t) (ht : t ≤ n - 2) :
    ∀ l, get_gc_indices_for_alt_allele n t = Except.ok l →
      (l.length : Int) = n ∧ l.Sorted (· < ·) := by
  intro l hl
  rw [get_gc_ok h2 h0 ht] at hl
  have he := Except.ok.inj hl
  rw [← he]
  constructor
  · rw [length_gc_indices (by omega) (by omega) (by omega)]
    omega
  · rw [gc_indices]
    exact sorted_filter_enum_map_fst _ _

/-- C10 witness: at `alleleCount = 4`, `altIndex = 2` the result
`[6, 7, 8, 9]` has exactly 4 strictly ascending positions. -/
theorem gc_indices_count_sorted_witness :
    (([6, 7, 8, 9] : List Nat).length : Int) = 4 ∧
      ([6, 7, 8, 9] : List Nat).Sorted (· < ·) :=
  gc_indices_count_sorted 4 2 (by decide) (by decide) (by decide) (by decide)
    [6, 7, 8, 9] (by rfl)
